import Mathlib

/-!
Verification of the MCTS engine specification against the repository source.

The TicTacToe game model is translated from `src/examples/TicTacToe/TicTacToe.cpp`
(board stored row-major: cell `(i, j)` lives at list index `3*i + j`, matching the
`board[i/3][i%3]` enumeration used throughout the C++ file).  The rollout loops
thread an explicit allocation heap (`Mem`) that models the `new`/`delete` pointer
discipline of the source, so that frame/ownership claims about the receiver object
are expressible.  Randomness (`std::mt19937` draws through
`uniform_int_distribution(0, n-1)`) is modelled by universally quantifying over a
draw function `choose : Nat -> Nat`, reduced into range with `% n` exactly as the
distribution guarantees.
-/

set_option autoImplicit false

namespace MCTSVerify

/-! ## TicTacToe data model (from TicTacToe.h / TicTacToe.cpp) -/

structure TicTacToe_move where
  x : Nat
  y : Nat
  player : Char
deriving DecidableEq, Repr

structure TicTacToe_state where
  board : List Char
  turn : Char
  winner : Char
deriving DecidableEq, Repr

/-- Reading `board[i/3][i%3]`; out-of-range reads (undefined behaviour in C++,
never exercised by the claims, which fix `length = 9`) default to a blank. -/
def boardGet (b : List Char) (i : Nat) : Char := b.getD i ' '

/-- `TicTacToe_state::player_won`: three rows, three columns, two diagonals. -/
def player_won (b : List Char) (p : Char) : Bool :=
  ((List.range 3).any fun i =>
      (boardGet b (3*i) == p && boardGet b (3*i+1) == p && boardGet b (3*i+2) == p) ||
      (boardGet b i == p && boardGet b (3+i) == p && boardGet b (6+i) == p)) ||
  (boardGet b 0 == p && boardGet b 4 == p && boardGet b 8 == p) ||
  (boardGet b 2 == p && boardGet b 4 == p && boardGet b 6 == p)

/-- The all-cells-taken scan inside `TicTacToe_state::calculate_winner`. -/
def allTaken (b : List Char) : Bool :=
  (List.range 9).all fun i => !(boardGet b i == ' ')

/-- `TicTacToe_state::calculate_winner`: a winner, else a draw on a full board,
else blank for "no-one yet". -/
def calculate_winner (b : List Char) : Char :=
  if player_won b 'x' then 'x'
  else if player_won b 'o' then 'o'
  else if allTaken b then 'd'
  else ' '

/-- `TicTacToe_state::is_terminal`: `winner != ' '`. -/
def TicTacToe_state.is_terminal (s : TicTacToe_state) : Bool := !(s.winner == ' ')

/-- `TicTacToe_state::change_turn`. -/
def other (c : Char) : Char := if c == 'x' then 'o' else 'x'

/-- `TicTacToe_state::next_state`: copy the state, play the move if the target
cell is blank (recomputing the winner and flipping the turn), otherwise warn and
return `NULL` (modelled as `none`). -/
def TicTacToe_state.next_state (s : TicTacToe_state) (m : TicTacToe_move) :
    Option TicTacToe_state :=
  if boardGet s.board (3 * m.x + m.y) == ' ' then
    let b := s.board.set (3 * m.x + m.y) m.player
    some { board := b, turn := other s.turn, winner := calculate_winner b }
  else none

/-- `TicTacToe_state::actions_to_try`: one move per blank cell, in the cell
enumeration order `i = 0..8` (FIFO queue modelled front-first). -/
def TicTacToe_state.actions_to_try (s : TicTacToe_state) : List TicTacToe_move :=
  (List.range 9).filterMap fun i =>
    if boardGet s.board i == ' ' then some ⟨i / 3, i % 3, s.turn⟩ else none

/-- The terminal score used by both rollout functions:
`(winner == 'x') ? 1.0 : (winner == 'd') ? 0.5 : 0.0` (doubles 1.0/0.5/0.0 are
exact, so the rational embedding is faithful). -/
def scoreOf (w : Char) : ℚ := if w == 'x' then 1 else if w == 'd' then 1/2 else 0

/-- States representable by the C++ class: a 3x3 board, a turn of 'x' or 'o'
(established by the constructor and preserved by `change_turn`), and the cached
`winner` field consistent with the board (the constructor and `next_state`
recompute it). -/
def WellFormed (s : TicTacToe_state) : Prop :=
  s.board.length = 9 ∧ (s.turn = 'x' ∨ s.turn = 'o') ∧
    s.winner = calculate_winner s.board

instance (s : TicTacToe_state) : Decidable (WellFormed s) := by
  unfold WellFormed; infer_instance

/-! ## Allocation heap, modelling the `new` / `delete` discipline -/

structure Mem where
  heap : List (Nat × TicTacToe_state)
  next : Nat
deriving DecidableEq, Repr

def alloc (m : Mem) (s : TicTacToe_state) : Nat × Mem :=
  (m.next, { heap := (m.next, s) :: m.heap, next := m.next + 1 })

def free (m : Mem) (a : Nat) : Mem :=
  { heap := m.heap.filter fun p => !(p.1 == a), next := m.next }

def readMem (m : Mem) (a : Nat) : Option TicTacToe_state :=
  (m.heap.find? fun p => p.1 == a).map (·.2)

def writeMem (m : Mem) (a : Nat) (s : TicTacToe_state) : Mem :=
  { heap := m.heap.map fun p => if p.1 = a then (a, s) else p, next := m.next }

/-- The deque of blank-cell indices built at the top of both rollout loops:
`push_front(i)` for ascending `i` leaves the deque in descending order, i.e. the
reverse of the ascending filter. -/
def availableOf (b : List Char) : List Nat :=
  ((List.range 9).filter fun i => boardGet b i == ' ').reverse

/-- The random-playout loop of `TicTacToe_state::rollout`, heap-instrumented.
Per iteration: bail out (returning the warning score later mapped to 0) if no
moves remain, draw `r` uniformly in `[0, available.size())`, play cell
`available[r]`, erase index `r`, allocate the successor, delete the previous
state unless it is the original receiver (`first`), and stop once terminal.
A `NULL` successor (C++ would then dereference it) is modelled as an error;
both error arms are unreachable for well-formed states. -/
def rolloutSim (choose : Nat → Nat) (k : Nat) (cur : TicTacToe_state)
    (curAddr : Nat) (first : Bool) (avail : List Nat) (m : Mem) :
    Except Unit TicTacToe_state × Mem :=
  match avail with
  | [] => (.error (), m)
  | a :: rest =>
    let r := choose k % (a :: rest).length
    let pos := (a :: rest).getD r 0
    let availNext := (a :: rest).eraseIdx r
    match cur.next_state ⟨pos / 3, pos % 3, cur.turn⟩ with
    | none => (.error (), m)
    | some nxt =>
      let am := alloc m nxt
      let m2 := if first then am.2 else free am.2 curAddr
      if nxt.is_terminal then (.ok nxt, free m2 am.1)
      else rolloutSim choose (k + 1) nxt am.1 false availNext m2
termination_by avail.length
decreasing_by
  simp only [List.length_eraseIdx, List.length_cons]
  have hr : choose k % (a :: rest).length < (a :: rest).length :=
    Nat.mod_lt _ (by simp)
  simp only [List.length_cons] at hr
  simp [hr]

/-- One win-test probe of `find_best_heuristic_move`: play `p` at `pos` on a
fresh copy and check the recomputed winner.  The C++ dereferences the successor
unconditionally; a `NULL` successor (blocked cell) cannot occur for positions
taken from the available list, and is mapped to `false` here. -/
def winsAt (cur : TicTacToe_state) (pos : Nat) (p : Char) : Bool :=
  match cur.next_state ⟨pos / 3, pos % 3, p⟩ with
  | some t => t.winner == p
  | none => false

def cornersList : List Nat := [0, 2, 6, 8]

/-- `TicTacToe_state::find_best_heuristic_move`: win if possible, else block the
opponent, else centre, else first free corner in the order 0,2,6,8, else a
uniform random pick from the remaining cells. -/
def find_best_heuristic_move (choose : Nat → Nat) (k : Nat)
    (cur : TicTacToe_state) (avail : List Nat) : Nat :=
  match avail.find? (fun pos => winsAt cur pos cur.turn) with
  | some pos => pos
  | none =>
    match avail.find? (fun pos => winsAt cur pos (other cur.turn)) with
    | some pos => pos
    | none =>
      if avail.contains 4 then 4
      else
        match cornersList.find? (fun c2 => avail.contains c2) with
        | some c2 => c2
        | none => avail.getD (choose k % avail.length) 0

/-- The heuristic-playout loop of `TicTacToe_state::heuristic_rollout`,
heap-instrumented like `rolloutSim`; the chosen cell is erased from the deque by
a value scan (`List.erase`).  Were the chosen cell not in the deque the C++ scan
would erase nothing and the loop could not make progress; that branch (and the
`NULL`-successor branch) are modelled as errors and proved unreachable. -/
def heurSim (choose : Nat → Nat) (k : Nat) (cur : TicTacToe_state)
    (curAddr : Nat) (first : Bool) (avail : List Nat) (m : Mem) :
    Except Unit TicTacToe_state × Mem :=
  match avail with
  | [] => (.error (), m)
  | a :: rest =>
    let best := find_best_heuristic_move choose k cur (a :: rest)
    if hmem : best ∈ a :: rest then
      let availNext := (a :: rest).erase best
      match cur.next_state ⟨best / 3, best % 3, cur.turn⟩ with
      | none => (.error (), m)
      | some nxt =>
        let am := alloc m nxt
        let m2 := if first then am.2 else free am.2 curAddr
        if nxt.is_terminal then (.ok nxt, free m2 am.1)
        else heurSim choose (k + 1) nxt am.1 false availNext m2
    else (.error (), m)
termination_by avail.length
decreasing_by
  have h1 : ((a :: rest).erase (find_best_heuristic_move choose k cur (a :: rest))).length
      = (a :: rest).length - 1 := List.length_erase_of_mem (by assumption)
  have h2 : 0 < (a :: rest).length := by simp
  omega

/-- The heap at entry of a rollout: the receiver object alone, at address 0. -/
def initMem (s : TicTacToe_state) : Mem := { heap := [(0, s)], next := 1 }

/-- `TicTacToe_state::rollout`: terminal states score immediately; otherwise the
random playout runs to termination (the unreachable warning path returns 0.0).
The second component is the allocation heap after the call. -/
def TicTacToe_state.rolloutFull (s : TicTacToe_state) (choose : Nat → Nat) :
    ℚ × Mem :=
  if s.is_terminal then (scoreOf s.winner, initMem s)
  else
    match rolloutSim choose 0 s 0 true (availableOf s.board) (initMem s) with
    | (.error _, m) => (0, m)
    | (.ok t, m) => (scoreOf t.winner, m)

def TicTacToe_state.rollout (s : TicTacToe_state) (choose : Nat → Nat) : ℚ :=
  (s.rolloutFull choose).1

/-- `TicTacToe_state::heuristic_rollout`, analogous to `rolloutFull`. -/
def TicTacToe_state.heuristic_rolloutFull (s : TicTacToe_state)
    (choose : Nat → Nat) : ℚ × Mem :=
  if s.is_terminal then (scoreOf s.winner, initMem s)
  else
    match heurSim choose 0 s 0 true (availableOf s.board) (initMem s) with
    | (.error _, m) => (0, m)
    | (.ok t, m) => (scoreOf t.winner, m)

def TicTacToe_state.heuristic_rollout (s : TicTacToe_state)
    (choose : Nat → Nat) : ℚ :=
  (s.heuristic_rolloutFull choose).1

/-- `TicTacToe_state::next_state` viewed on the heap: read the receiver, allocate
the copy (`new TicTacToe_state(*this)`), then either mutate the copy in place
(play the move, recompute the winner, flip the turn) or report the illegal move
with `NULL`; the receiver is only read. -/
def next_state_onHeap (m : Mem) (addr : Nat) (mv : TicTacToe_move) :
    Option Nat × Mem :=
  match readMem m addr with
  | none => (none, m)
  | some s =>
    let am := alloc m s
    if boardGet s.board (3 * mv.x + mv.y) == ' ' then
      let b2 := s.board.set (3 * mv.x + mv.y) mv.player
      (some am.1,
        writeMem am.2 am.1 { board := b2, turn := other s.turn, winner := calculate_winner b2 })
    else (none, am.2)

/-! ## Rollout strategy dispatch (from mcts.h, `RolloutJob::run`) -/

inductive RolloutStrategy where
  | RANDOM
  | HEURISTIC
  | MIXED
  | HEAVY
deriving DecidableEq, Repr

inductive RolloutCall where
  | heuristicCall
  | randomCall
deriving DecidableEq, Repr

/-- `RAND_MAX`; its value is platform defined (at least 32767, which the C
standard's reference `rand` attains; `2^31 - 1` on glibc).  No claim below
depends on the particular value, only on `rand()` ranging over
`[0, RAND_MAX]`. -/
def C_RAND_MAX : Nat := 32767

/-- The strategy switch in `RolloutJob::run`, as a function of the `rand()`
draw used by the MIXED arm (`static_cast<double>(rand()) / RAND_MAX < ratio`;
at ratio 0 and 1 the rational comparison agrees exactly with the double one). -/
def RolloutJob_run (strategy : RolloutStrategy) (ratio : ℚ) (draw : Nat) :
    RolloutCall :=
  match strategy with
  | .HEURISTIC => .heuristicCall
  | .MIXED =>
    if (draw : ℚ) / (C_RAND_MAX : ℚ) < ratio then .heuristicCall else .randomCall
  | .HEAVY => .heuristicCall
  | .RANDOM => .randomCall

/-- One step of the C standard's reference implementation of `rand()`:
`next = next * 1103515245 + 12345` on the hidden process-wide `unsigned long`
state (64 bits on the target platform). -/
def cRandStep (g : Nat) : Nat := (g * 1103515245 + 12345) % 2 ^ 64

/-- The value returned by that `rand()` call: `(unsigned)(next/65536) % 32768`. -/
def cRandOut (g : Nat) : Nat := g / 65536 % 32768

/-- `RolloutJob::run` with the process-wide `rand()` state made explicit: only
the MIXED arm calls `rand()`, reading and advancing the shared state; the other
arms dispatch without drawing. -/
def RolloutJob_run_shared (strategy : RolloutStrategy) (ratio : ℚ) (g : Nat) :
    RolloutCall × Nat :=
  match strategy with
  | .HEURISTIC => (.heuristicCall, g)
  | .MIXED =>
    let g2 := cRandStep g
    (if (cRandOut g2 : ℚ) / (C_RAND_MAX : ℚ) < ratio then .heuristicCall
     else .randomCall, g2)
  | .HEAVY => (.heuristicCall, g)
  | .RANDOM => (.randomCall, g)

/-! ## Modelled from the spec: `MCTS_node::select_best_child`

The implementation file `mcts.cpp` of this repository is not under `src/`
(only its declaration in `mcts.h` is), so the UCT child selection is modelled
from the spec (section 4.4): children with zero visits are selected immediately,
ties by lowest index; otherwise the child maximising
`winrate + c * sqrt(ln(visits(self)) / visits(child))` wins, where the winrate
is inverted when the non-self side moves, ties again by lowest index. -/

structure SpecChild where
  visits : Nat
  score : ℚ

/-- Modelled from the spec: the winrate term of the UCT score, inverted when the
opponent moves at the parent. -/
noncomputable def specWinrate (selfTurn : Bool) (ch : SpecChild) : ℝ :=
  if selfTurn then (ch.score : ℝ) / ch.visits else 1 - (ch.score : ℝ) / ch.visits

/-- Modelled from the spec: the UCT score of a child. -/
noncomputable def specUCT (c : ℝ) (selfVisits : Nat) (selfTurn : Bool)
    (ch : SpecChild) : ℝ :=
  specWinrate selfTurn ch + c * Real.sqrt (Real.log selfVisits / ch.visits)

/-- Index of the first zero-visit child, if any. -/
def firstZeroIdx : List SpecChild → Option Nat
  | [] => none
  | ch :: rest => if ch.visits = 0 then some 0 else (firstZeroIdx rest).map (· + 1)

open Classical in
/-- First index in `[0, n)` attaining the maximum of `f` (strictly larger scores
replace the incumbent, so earlier indices win ties). -/
noncomputable def bestIdxOf (f : Nat → ℝ) (n : Nat) : Nat :=
  (List.range n).foldl (fun best j => if f best < f j then j else best) 0

/-- Modelled from the spec: `MCTS_node::select_best_child` over the children's
statistics, returning the index of the chosen child. -/
noncomputable def select_best_child (c : ℝ) (selfVisits : Nat) (selfTurn : Bool)
    (children : List SpecChild) : Option Nat :=
  if children.isEmpty then none
  else
    match firstZeroIdx children with
    | some i => some i
    | none =>
      some (bestIdxOf
        (fun j => specUCT c selfVisits selfTurn (children.getD j ⟨1, 0⟩))
        children.length)

/-! ## Interface surface (state.h, TicTacToe.h, the two py_wrappers.h variants)

The turn-identification members each class declares, transcribed from the
headers; used to check the interface-migration claim. -/

def MCTS_state_virtual_members : List String :=
  ["actions_to_try", "next_state", "rollout", "is_terminal", "print",
   "is_self_side_turn", "clone", "heuristic_rollout", "evaluate_move",
   "evaluate_position"]

/-- Members declared by `TicTacToe_state` in TicTacToe.h. -/
def TicTacToe_state_members : List String :=
  ["get_turn", "get_winner", "is_terminal", "next_state", "actions_to_try",
   "rollout", "print", "player1_turn", "heuristic_rollout", "evaluate_move",
   "evaluate_position"]

/-- Members overridden by the trampoline `PyMCTS_state` in the older
py_wrappers.h variant shipped in the repository. -/
def PyMCTS_state_old_members : List String :=
  ["actions_to_try", "next_state", "rollout", "is_terminal", "print",
   "player1_turn"]

/-- Members overridden by the trampoline `PyMCTS_state` in
src/pybind/py_wrappers.h. -/
def PyMCTS_state_members : List String :=
  ["actions_to_try", "next_state", "rollout", "is_terminal", "print",
   "is_self_side_turn", "clone"]

/-- Members overridden by `SerializedPythonState` in src/pybind/py_wrappers.h. -/
def SerializedPythonState_members : List String :=
  ["actions_to_try", "next_state", "rollout", "is_terminal", "print",
   "is_self_side_turn", "clone"]

/-! ## SerializedPythonState::next_state (src/pybind/py_wrappers.cpp) -/

structure SerializedPythonState (π : Type) where
  python_state : π

/-- `SerializedPythonState::next_state`: inside one try block, extract the
Python move from the wrapper (which may throw) and invoke the Python
`next_state` callback (which may throw); on success wrap the returned Python
state, on any exception warn and wrap the unchanged current Python state.  The
`MCTS_state*` return is modelled as an `Option`; `none` would be C++ `NULL`. -/
def SerializedPythonState.next_state {π μ πm ε : Type}
    (extract : μ → Except ε πm) (callNext : π → πm → Except ε π)
    (self : SerializedPythonState π) (mv : μ) :
    Option (SerializedPythonState π) :=
  match (extract mv).bind (callNext self.python_state) with
  | .ok t => some ⟨t⟩
  | .error _ => some ⟨self.python_state⟩

/-! ## queue / vector conversions (src/pybind/py_wrappers.cpp) -/

/-- The drain loop of `queue_to_vector`: `while (!q->empty())` push the front
onto the result and pop. FIFO queues are modelled front-first. -/
def drainQueue {α : Type} : List α → List α
  | [] => []
  | x :: rest => x :: drainQueue rest

/-- `queue_to_vector`: a null queue yields the empty vector, otherwise the queue
is drained front to back. -/
def queue_to_vector {α : Type} (q : Option (List α)) : List α :=
  match q with
  | none => []
  | some l => drainQueue l

/-- `vector_to_queue`: push each element in vector order onto a fresh queue. -/
def vector_to_queue {α : Type} (v : List α) : List α :=
  v.foldl (fun q mv => q ++ [mv]) []

/-! ## Concrete states used as witnesses and counterexamples -/

/-- A position reached after x plays (0,0),(0,1),(0,2) and o plays (1,0),(1,1):
x has completed the top row, so the state is terminal, yet four cells remain
blank. -/
def wonState : TicTacToe_state :=
  { board := ['x', 'x', 'x', 'o', 'o', ' ', ' ', ' ', ' '], turn := 'o', winner := 'x' }

/-- The freshly constructed state: empty board, x to move, no winner. -/
def emptyState : TicTacToe_state :=
  { board := [' ', ' ', ' ', ' ', ' ', ' ', ' ', ' ', ' '], turn := 'x', winner := ' ' }

/-! ## Theorems -/

lemma drainQueue_eq (α : Type) (l : List α) : drainQueue l = l := by
  induction l with
  | nil => rfl
  | cons x rest ih => simp [drainQueue, ih]

lemma foldl_push_eq (α : Type) (v acc : List α) :
    v.foldl (fun q mv => q ++ [mv]) acc = acc ++ v := by
  induction v generalizing acc with
  | nil => simp
  | cons x rest ih => simp [ih]

/-- C10: `queue_to_vector` of a null queue is the empty vector, and
`queue_to_vector (vector_to_queue v)` returns exactly `v` (same move pointers,
same order), so the round trip is the identity. -/
theorem claim10_queue_vector_roundtrip (α : Type) :
    queue_to_vector (none : Option (List α)) = [] ∧
    ∀ v : List α, queue_to_vector (some (vector_to_queue v)) = v := by
  refine ⟨rfl, fun v => ?_⟩
  simp [queue_to_vector, vector_to_queue, drainQueue_eq, foldl_push_eq]

/-- C8: `SerializedPythonState::next_state` always returns a non-null state;
when the Python callback (or the move extraction) throws, the result wraps the
unchanged current Python state instead of being `NULL`. -/
theorem claim8_sps_next_state_total (π μ πm ε : Type) (extract : μ → Except ε πm)
    (callNext : π → πm → Except ε π) (self : SerializedPythonState π) (mv : μ) :
    (SerializedPythonState.next_state extract callNext self mv).isSome = true ∧
    ∀ e : ε, (extract mv).bind (callNext self.python_state) = .error e →
      SerializedPythonState.next_state extract callNext self mv
        = some ⟨self.python_state⟩ := by
  unfold SerializedPythonState.next_state
  cases h : (extract mv).bind (callNext self.python_state) <;> simp

/-- Witness for C8 at a concrete always-throwing callback. -/
theorem claim8_witness :
    SerializedPythonState.next_state
        (fun _ : Nat => (Except.error () : Except Unit Nat))
        (fun _ _ => Except.ok 0) (⟨7⟩ : SerializedPythonState Nat) 0
      = some ⟨7⟩ :=
  (claim8_sps_next_state_total Nat Nat Nat Unit _ _ ⟨7⟩ 0).2 () rfl

/-- C2 counterexample: under MIXED with ratio 1, the draw `RAND_MAX` (a value
`rand()` attains) makes `rand()/RAND_MAX < ratio` compare `1 < 1`, so that
simulation calls `rollout`, not `heuristic_rollout`. -/
theorem claim2_counterexample :
    RolloutJob_run .MIXED 1 C_RAND_MAX = .randomCall ∧
    RolloutCall.randomCall ≠ RolloutCall.heuristicCall := by
  have hpos : (0 : ℚ) < (C_RAND_MAX : ℚ) := by norm_num [C_RAND_MAX]
  have hone : (C_RAND_MAX : ℚ) / (C_RAND_MAX : ℚ) = 1 := div_self hpos.ne'
  exact ⟨by simp [RolloutJob_run, hone], by decide⟩

/-- C2 amended: HEURISTIC and HEAVY always call `heuristic_rollout`, RANDOM
always calls `rollout`, MIXED with ratio 0 always calls `rollout`; MIXED with
ratio 1 calls `heuristic_rollout` for every draw except `RAND_MAX` itself,
where it calls `rollout`. -/
theorem claim2_amended (ratio : ℚ) (draw : Nat) (hdraw : draw ≤ C_RAND_MAX) :
    RolloutJob_run .HEURISTIC ratio draw = .heuristicCall ∧
    RolloutJob_run .HEAVY ratio draw = .heuristicCall ∧
    RolloutJob_run .RANDOM ratio draw = .randomCall ∧
    RolloutJob_run .MIXED 0 draw = .randomCall ∧
    (RolloutJob_run .MIXED 1 draw = .heuristicCall ↔ draw < C_RAND_MAX) := by
  have hpos : (0 : ℚ) < (C_RAND_MAX : ℚ) := by norm_num [C_RAND_MAX]
  refine ⟨rfl, rfl, rfl, ?_, ?_⟩
  · have hnn : (0 : ℚ) ≤ (draw : ℚ) / (C_RAND_MAX : ℚ) :=
      div_nonneg (by positivity) hpos.le
    simp [RolloutJob_run, not_lt.mpr hnn]
  · have h1 : ((draw : ℚ) / (C_RAND_MAX : ℚ) < 1) ↔ draw < C_RAND_MAX := by
      rw [div_lt_one hpos, Nat.cast_lt]
    by_cases h : draw < C_RAND_MAX
    · simp [RolloutJob_run, h1.mpr h, h]
    · simp [RolloutJob_run, h1, h]

/-- Witness for C2 at draw 0, ratio 1. -/
theorem claim2_witness :
    RolloutJob_run .HEURISTIC 1 0 = .heuristicCall ∧
    RolloutJob_run .HEAVY 1 0 = .heuristicCall ∧
    RolloutJob_run .RANDOM 1 0 = .randomCall ∧
    RolloutJob_run .MIXED 0 0 = .randomCall ∧
    (RolloutJob_run .MIXED 1 0 = .heuristicCall ↔ 0 < C_RAND_MAX) :=
  claim2_amended 1 0 (by decide)

/-- C7 counterexample: running one MIXED job from the shared rand state 1 (the
C library's initial seed) leaves that shared state changed — the decision draw
is taken from the process-wide `rand()`, not from a thread-local generator. -/
theorem claim7_counterexample :
    (RolloutJob_run_shared .MIXED (1/2) 1).2 ≠ 1 := by decide

/-- C7 amended: the MIXED decision draw comes from the process-wide `rand()`
generator — each MIXED job advances the shared state by exactly one `rand()`
call, so concurrent workers share PRNG state; the other strategies draw
nothing.  (The rollout bodies themselves, e.g. TicTacToe's, do use
`thread_local` generators.) -/
theorem claim7_amended (ratio : ℚ) (g : Nat) :
    (RolloutJob_run_shared .MIXED ratio g).2 = cRandStep g ∧
    (RolloutJob_run_shared .RANDOM ratio g).2 = g ∧
    (RolloutJob_run_shared .HEURISTIC ratio g).2 = g ∧
    (RolloutJob_run_shared .HEAVY ratio g).2 = g :=
  ⟨rfl, rfl, rfl, rfl⟩

/-- C6: the abstract contract (state.h) indeed exposes `is_self_side_turn` and
no `player1_turn`, but the bundled TicTacToe state and the older bundled
trampoline state still declare `player1_turn` and do not implement
`is_self_side_turn` — contradicting the repository's own README ("player1_turn
has been removed") and the pybind module, which binds
`TicTacToe_state::is_self_side_turn`. -/
theorem claim6_divergence :
    ("is_self_side_turn" ∈ MCTS_state_virtual_members ∧
      "player1_turn" ∉ MCTS_state_virtual_members) ∧
    ("player1_turn" ∈ TicTacToe_state_members ∧
      "is_self_side_turn" ∉ TicTacToe_state_members) ∧
    ("player1_turn" ∈ PyMCTS_state_old_members ∧
      "is_self_side_turn" ∉ PyMCTS_state_old_members) ∧
    "is_self_side_turn" ∈ PyMCTS_state_members ∧
    "is_self_side_turn" ∈ SerializedPythonState_members := by decide

/-- C1 counterexample: in `wonState` x has completed the top row (terminal) yet
four blank cells remain, so `actions_to_try` returns a non-empty queue — the
queue is not empty iff the state is terminal. -/
theorem claim1_counterexample :
    ¬ ((wonState.actions_to_try = []) ↔ wonState.is_terminal = true) := by
  decide

lemma actions_to_try_eq_nil_iff (s : TicTacToe_state) :
    s.actions_to_try = [] ↔ allTaken s.board = true := by
  simp only [TicTacToe_state.actions_to_try, List.filterMap_eq_nil_iff,
    allTaken, List.all_eq_true]
  refine forall_congr' fun i => ?_
  by_cases hb : boardGet s.board i == ' ' <;> simp [hb]

lemma allTaken_winner_ne_blank (b : List Char) (h : allTaken b = true) :
    calculate_winner b ≠ ' ' := by
  unfold calculate_winner
  split_ifs <;> simp_all

/-- C1 amended: `actions_to_try` returns one move per blank cell, so its queue
is empty iff the board is full; an empty queue still implies a terminal state,
but a terminal state with a completed line and blank cells remaining yields a
non-empty queue. -/
theorem claim1_amended (s : TicTacToe_state) (h : WellFormed s) :
    (s.actions_to_try = [] ↔ allTaken s.board = true) ∧
    (s.actions_to_try = [] → s.is_terminal = true) := by
  refine ⟨actions_to_try_eq_nil_iff s, fun he => ?_⟩
  have hA := (actions_to_try_eq_nil_iff s).1 he
  have hw := allTaken_winner_ne_blank _ hA
  rw [← h.2.2] at hw
  simp [TicTacToe_state.is_terminal, hw]

/-- Witness for C1 at the won-with-blanks state. -/
theorem claim1_witness :
    (wonState.actions_to_try = [] ↔ allTaken wonState.board = true) ∧
    (wonState.actions_to_try = [] → wonState.is_terminal = true) :=
  claim1_amended wonState (by decide)

lemma boardGet_set_self (b : List Char) (n : Nat) (c : Char)
    (h : n < b.length) : boardGet (b.set n c) n = c := by
  simp [boardGet, List.getD_eq_getElem?_getD, List.getElem?_set_self h]

lemma boardGet_set_ne (b : List Char) (n i : Nat) (c : Char) (h : n ≠ i) :
    boardGet (b.set n c) i = boardGet b i := by
  simp [boardGet, List.getD_eq_getElem?_getD, List.getElem?_set_ne h]

/-- C3: `next_state` returns `NULL` exactly when cell `(m.x, m.y)` is already
occupied; otherwise it returns a fresh state in which that cell holds
`m.player`, the winner has been recomputed from the new board, and the turn has
passed to the other player. -/
theorem claim3_next_state (s : TicTacToe_state) (m : TicTacToe_move)
    (hx : m.x < 3) (hy : m.y < 3) (hlen : s.board.length = 9) :
    (s.next_state m = none ↔ boardGet s.board (3 * m.x + m.y) ≠ ' ') ∧
    ∀ t, s.next_state m = some t →
      t.board = s.board.set (3 * m.x + m.y) m.player ∧
      boardGet t.board (3 * m.x + m.y) = m.player ∧
      t.winner = calculate_winner t.board ∧
      t.turn = other s.turn := by
  have hidx : 3 * m.x + m.y < s.board.length := by omega
  unfold TicTacToe_state.next_state
  by_cases hb : boardGet s.board (3 * m.x + m.y) = ' '
  · simp only [hb, beq_self_eq_true, if_true]
    refine ⟨by simp [hb], fun t ht => ?_⟩
    obtain rfl : _ = t := Option.some.inj ht
    exact ⟨rfl, boardGet_set_self _ _ _ hidx, rfl, rfl⟩
  · have : (boardGet s.board (3 * m.x + m.y) == ' ') = false := by
      simpa using hb
    simp [this, hb]

/-- Witness for C3: playing the centre on the empty board. -/
theorem claim3_witness :
    (emptyState.next_state ⟨1, 1, 'x'⟩ = none ↔
      boardGet emptyState.board 4 ≠ ' ') ∧
    ∀ t, emptyState.next_state ⟨1, 1, 'x'⟩ = some t →
      t.board = emptyState.board.set 4 'x' ∧
      boardGet t.board 4 = 'x' ∧
      t.winner = calculate_winner t.board ∧
      t.turn = other emptyState.turn :=
  claim3_next_state emptyState ⟨1, 1, 'x'⟩ (by decide) (by decide) (by decide)

lemma getD_mem_of_lt (l : List Nat) (r : Nat) (hr : r < l.length) :
    l.getD r 0 ∈ l := by
  rw [List.getD_eq_getElem l 0 hr]
  exact List.getElem_mem hr

lemma mem_eraseIdx_iff (l : List Nat) (hnd : l.Nodup) :
    ∀ r : Nat, r < l.length →
      ∀ x, x ∈ l.eraseIdx r ↔ x ∈ l ∧ x ≠ l.getD r 0 := by
  induction l with
  | nil => intro r hr; simp at hr
  | cons a t ih =>
    intro r hr x
    match r with
    | 0 =>
      simp only [List.eraseIdx, List.getD_cons_zero, List.mem_cons]
      have ha : a ∉ t := (List.nodup_cons.mp hnd).1
      constructor
      · intro hx
        exact ⟨Or.inr hx, fun he => ha (he ▸ hx)⟩
      · rintro ⟨hx | hx, hne⟩
        · exact absurd hx hne
        · exact hx
    | r + 1 =>
      simp only [List.eraseIdx, List.getD_cons_succ, List.mem_cons]
      have hrt : r < t.length := by simpa using hr
      have hmem : t.getD r 0 ∈ t := getD_mem_of_lt t r hrt
      have ha : a ∉ t := (List.nodup_cons.mp hnd).1
      rw [ih (List.nodup_cons.mp hnd).2 r hrt x]
      constructor
      · rintro (hx | ⟨hx, hne⟩)
        · exact ⟨Or.inl hx, fun he => ha (by rw [← hx, he]; exact hmem)⟩
        · exact ⟨Or.inr hx, hne⟩
      · rintro ⟨hx | hx, hne⟩
        · exact Or.inl hx
        · exact Or.inr ⟨hx, hne⟩

lemma mem_availableOf (b : List Char) (i : Nat) :
    i ∈ availableOf b ↔ i < 9 ∧ boardGet b i = ' ' := by
  simp [availableOf, List.mem_reverse, List.mem_filter, List.mem_range]

lemma nodup_availableOf (b : List Char) : (availableOf b).Nodup := by
  rw [availableOf, List.nodup_reverse]
  exact (List.nodup_range 9).filter _

lemma other_cases (c : Char) : other c = 'x' ∨ other c = 'o' := by
  unfold other
  split <;> simp

lemma next_state_pos (s : TicTacToe_state) (pos : Nat) (p : Char)
    (hb : boardGet s.board pos = ' ') :
    s.next_state ⟨pos / 3, pos % 3, p⟩ =
      some ⟨s.board.set pos p, other s.turn,
        calculate_winner (s.board.set pos p)⟩ := by
  have h3 : 3 * (pos / 3) + pos % 3 = pos := Nat.div_add_mod pos 3
  simp [TicTacToe_state.next_state, h3, hb]

lemma exists_blank_of_winner_blank (b : List Char)
    (h : calculate_winner b = ' ') : ∃ i, i < 9 ∧ boardGet b i = ' ' := by
  unfold calculate_winner at h
  split_ifs at h with h1 h2 h3
  · exact absurd h (by decide)
  · exact absurd h (by decide)
  · exact absurd h (by decide)
  · obtain ⟨i, hi, hbl⟩ : ∃ i ∈ List.range 9, ¬(!(boardGet b i == ' ')) = true := by
      by_contra hc
      push_neg at hc
      exact h3 (List.all_eq_true.mpr fun i hi => of_not_not (by simpa using hc i hi))
    exact ⟨i, by simpa using hi, by simpa using hbl⟩

lemma nonterminal_winner_blank (s : TicTacToe_state)
    (hw : s.winner = calculate_winner s.board) (ht : s.is_terminal = false) :
    calculate_winner s.board = ' ' := by
  rw [← hw]
  simpa [TicTacToe_state.is_terminal] using ht

/-- The invariant carried through both playout loops: a well-formed,
non-terminal current state whose blank cells are exactly the contents of the
available deque (no duplicates). -/
def LoopInv (cur : TicTacToe_state) (avail : List Nat) : Prop :=
  WellFormed cur ∧ avail.Nodup ∧
    ∀ i, i ∈ avail ↔ i < 9 ∧ boardGet cur.board i = ' '

lemma loopInv_avail_ne_nil (cur : TicTacToe_state) (avail : List Nat)
    (hinv : LoopInv cur avail) (ht : cur.is_terminal = false) :
    avail ≠ [] := by
  obtain ⟨⟨hlen, hturn, hw⟩, hnd, hmem⟩ := hinv
  obtain ⟨i, hi, hbl⟩ :=
    exists_blank_of_winner_blank _ (nonterminal_winner_blank cur hw ht)
  intro hnil
  have := (hmem i).mpr ⟨hi, hbl⟩
  rw [hnil] at this
  exact absurd this (List.not_mem_nil i)

/-- Playing a blank cell preserves the loop invariant: the successor is again
well formed and its blank cells are the previous available cells minus the one
just played. -/
lemma loopInv_step (cur : TicTacToe_state) (avail : List Nat) (pos : Nat)
    (hinv : LoopInv cur avail) (hpos : pos ∈ avail) (availNext : List Nat)
    (hnextNodup : availNext.Nodup)
    (hnextMem : ∀ i, i ∈ availNext ↔ i ∈ avail ∧ i ≠ pos) :
    LoopInv
      ⟨cur.board.set pos cur.turn, other cur.turn,
        calculate_winner (cur.board.set pos cur.turn)⟩ availNext := by
  obtain ⟨⟨hlen, hturn, hw⟩, hnd, hmem⟩ := hinv
  obtain ⟨hpos9, hposb⟩ := (hmem pos).mp hpos
  have hlen2 : (cur.board.set pos cur.turn).length = 9 := by
    simp [List.length_set, hlen]
  refine ⟨⟨hlen2, other_cases _, rfl⟩, hnextNodup, fun i => ?_⟩
  rw [hnextMem i]
  constructor
  · rintro ⟨hi, hne⟩
    obtain ⟨hi9, hib⟩ := (hmem i).mp hi
    exact ⟨hi9, by rw [boardGet_set_ne _ _ _ _ (Ne.symm hne)]; exact hib⟩
  · rintro ⟨hi9, hib⟩
    have hne : i ≠ pos := by
      intro he
      subst he
      rw [boardGet_set_self _ _ _ (hlen ▸ hpos9)] at hib
      rcases hturn with h | h <;> rw [h] at hib <;> exact absurd hib (by decide)
    rw [boardGet_set_ne _ _ _ _ (Ne.symm hne)] at hib
    exact ⟨(hmem i).mpr ⟨hi9, hib⟩, hne⟩

/-- The random playout loop, started on a non-terminal well-formed state with
its blank-cell deque, always reaches a terminal well-formed state (neither
warning/error path can trigger). -/
lemma rolloutSim_ok (choose : Nat → Nat) :
    ∀ (n : Nat) (avail : List Nat) (k : Nat) (cur : TicTacToe_state)
      (curAddr : Nat) (first : Bool) (m : Mem),
      avail.length ≤ n → LoopInv cur avail → cur.is_terminal = false →
      ∃ t, (rolloutSim choose k cur curAddr first avail m).1 = .ok t ∧
        t.is_terminal = true ∧ WellFormed t := by
  intro n
  induction n with
  | zero =>
    intro avail k cur curAddr first m hle hinv ht
    have hne := loopInv_avail_ne_nil cur avail hinv ht
    cases avail with
    | nil => exact absurd rfl hne
    | cons a rest => simp at hle
  | succ n ih =>
    intro avail k cur curAddr first m hle hinv ht
    have hne := loopInv_avail_ne_nil cur avail hinv ht
    cases avail with
    | nil => exact absurd rfl hne
    | cons a rest =>
      simp only [rolloutSim]
      generalize hq : choose k % (a :: rest).length = q
      generalize hposgd : (a :: rest).getD q 0 = pos
      have hq9 : q < (a :: rest).length := by
        rw [← hq]
        exact Nat.mod_lt _ (by simp)
      have hposmem : pos ∈ a :: rest := hposgd ▸ getD_mem_of_lt _ _ hq9
      obtain ⟨hpos9, hposblank⟩ := (hinv.2.2 pos).mp hposmem
      have hns := next_state_pos cur pos cur.turn hposblank
      simp only [hns]
      set nxt : TicTacToe_state :=
        ⟨cur.board.set pos cur.turn, other cur.turn,
          calculate_winner (cur.board.set pos cur.turn)⟩ with hnxt
      have hinv2 : LoopInv nxt ((a :: rest).eraseIdx q) :=
        loopInv_step cur (a :: rest) pos hinv hposmem _
          ((List.eraseIdx_sublist _ _).nodup hinv.2.1)
          (fun x => by rw [mem_eraseIdx_iff _ hinv.2.1 q hq9 x, hposgd])
      by_cases hterm : nxt.is_terminal = true
      · refine ⟨nxt, ?_, hterm, hinv2.1⟩
        rw [if_pos hterm]
      · rw [if_neg hterm]
        have hlen2 : ((a :: rest).eraseIdx q).length ≤ n := by
          rw [List.length_eraseIdx]
          simp only [hq9, if_true]
          simp only [List.length_cons] at hle ⊢
          omega
        exact ih _ _ _ _ _ _ hlen2 hinv2 (Bool.not_eq_true _ |>.mp hterm)

/-- Every priority of `find_best_heuristic_move` picks a cell of the available
deque. -/
lemma find_best_heuristic_move_mem (choose : Nat → Nat) (k : Nat)
    (cur : TicTacToe_state) (avail : List Nat) (h : avail ≠ []) :
    find_best_heuristic_move choose k cur avail ∈ avail := by
  unfold find_best_heuristic_move
  cases h1 : avail.find? (fun pos => winsAt cur pos cur.turn) with
  | some pos => simp only [h1]; exact List.mem_of_find?_eq_some h1
  | none =>
    simp only [h1]
    cases h2 : avail.find? (fun pos => winsAt cur pos (other cur.turn)) with
    | some pos => simp only [h2]; exact List.mem_of_find?_eq_some h2
    | none =>
      simp only [h2]
      cases h4 : avail.contains 4 with
      | true =>
        simp only [h4, if_true]
        simpa using h4
      | false =>
        simp only [h4, Bool.false_eq_true, if_false]
        cases h5 : cornersList.find? (fun c2 => avail.contains c2) with
        | some c2 =>
          simp only [h5]
          have := List.find?_some h5
          simpa using this
        | none =>
          simp only [h5]
          have hlen : 0 < avail.length := List.length_pos.mpr h
          exact getD_mem_of_lt _ _ (Nat.mod_lt _ hlen)

/-- The heuristic playout loop, started on a non-terminal well-formed state
with its blank-cell deque, always reaches a terminal well-formed state. -/
lemma heurSim_ok (choose : Nat → Nat) :
    ∀ (n : Nat) (avail : List Nat) (k : Nat) (cur : TicTacToe_state)
      (curAddr : Nat) (first : Bool) (m : Mem),
      avail.length ≤ n → LoopInv cur avail → cur.is_terminal = false →
      ∃ t, (heurSim choose k cur curAddr first avail m).1 = .ok t ∧
        t.is_terminal = true ∧ WellFormed t := by
  intro n
  induction n with
  | zero =>
    intro avail k cur curAddr first m hle hinv ht
    have hne := loopInv_avail_ne_nil cur avail hinv ht
    cases avail with
    | nil => exact absurd rfl hne
    | cons a rest => simp at hle
  | succ n ih =>
    intro avail k cur curAddr first m hle hinv ht
    have hne := loopInv_avail_ne_nil cur avail hinv ht
    cases avail with
    | nil => exact absurd rfl hne
    | cons a rest =>
      simp only [heurSim]
      generalize hbest : find_best_heuristic_move choose k cur (a :: rest) = best
      have hbm : best ∈ a :: rest :=
        hbest ▸ find_best_heuristic_move_mem choose k cur (a :: rest) (by simp)
      rw [dif_pos hbm]
      obtain ⟨hb9, hbblank⟩ := (hinv.2.2 best).mp hbm
      have hns := next_state_pos cur best cur.turn hbblank
      simp only [hns]
      set nxt : TicTacToe_state :=
        ⟨cur.board.set best cur.turn, other cur.turn,
          calculate_winner (cur.board.set best cur.turn)⟩ with hnxt
      have hinv2 : LoopInv nxt ((a :: rest).erase best) :=
        loopInv_step cur (a :: rest) best hinv hbm _
          ((List.erase_sublist _ _).nodup hinv.2.1)
          (fun x => by rw [List.Nodup.mem_erase_iff hinv.2.1, and_comm])
      by_cases hterm : nxt.is_terminal = true
      · refine ⟨nxt, ?_, hterm, hinv2.1⟩
        rw [if_pos hterm]
      · rw [if_neg hterm]
        have hlen2 : ((a :: rest).erase best).length ≤ n := by
          have h1 := List.length_erase_of_mem hbm
          simp only [List.length_cons] at hle h1 ⊢
          omega
        exact ih _ _ _ _ _ _ hlen2 hinv2 (Bool.not_eq_true _ |>.mp hterm)

lemma scoreOf_cases (w : Char) : scoreOf w = 0 ∨ scoreOf w = 1/2 ∨ scoreOf w = 1 := by
  unfold scoreOf
  split_ifs <;> simp

lemma rollout_terminal (choose : Nat → Nat) (s : TicTacToe_state)
    (ht : s.is_terminal = true) : s.rollout choose = scoreOf s.winner := by
  unfold TicTacToe_state.rollout TicTacToe_state.rolloutFull
  rw [if_pos ht]

lemma heuristic_rollout_terminal (choose : Nat → Nat) (s : TicTacToe_state)
    (ht : s.is_terminal = true) : s.heuristic_rollout choose = scoreOf s.winner := by
  unfold TicTacToe_state.heuristic_rollout TicTacToe_state.heuristic_rolloutFull
  rw [if_pos ht]

lemma rollout_nonterminal (choose : Nat → Nat) (s : TicTacToe_state)
    (h : WellFormed s) (ht : s.is_terminal = false) :
    ∃ t, t.is_terminal = true ∧ WellFormed t ∧
      s.rollout choose = scoreOf t.winner := by
  obtain ⟨t, hok, hterm, hwf⟩ :=
    rolloutSim_ok choose (availableOf s.board).length (availableOf s.board) 0 s 0
      true (initMem s) le_rfl
      ⟨h, nodup_availableOf _, fun i => mem_availableOf _ i⟩ ht
  refine ⟨t, hterm, hwf, ?_⟩
  unfold TicTacToe_state.rollout TicTacToe_state.rolloutFull
  rw [if_neg (by simp [ht])]
  rcases hsim : rolloutSim choose 0 s 0 true (availableOf s.board) (initMem s)
    with ⟨res, mm⟩
  rw [hsim] at hok
  cases res with
  | error e => exact absurd hok (by simp)
  | ok t2 =>
    simp only at hok
    obtain rfl : t2 = t := Except.ok.inj hok
    rfl

lemma heuristic_rollout_nonterminal (choose : Nat → Nat) (s : TicTacToe_state)
    (h : WellFormed s) (ht : s.is_terminal = false) :
    ∃ t, t.is_terminal = true ∧ WellFormed t ∧
      s.heuristic_rollout choose = scoreOf t.winner := by
  obtain ⟨t, hok, hterm, hwf⟩ :=
    heurSim_ok choose (availableOf s.board).length (availableOf s.board) 0 s 0
      true (initMem s) le_rfl
      ⟨h, nodup_availableOf _, fun i => mem_availableOf _ i⟩ ht
  refine ⟨t, hterm, hwf, ?_⟩
  unfold TicTacToe_state.heuristic_rollout TicTacToe_state.heuristic_rolloutFull
  rw [if_neg (by simp [ht])]
  rcases hsim : heurSim choose 0 s 0 true (availableOf s.board) (initMem s)
    with ⟨res, mm⟩
  rw [hsim] at hok
  cases res with
  | error e => exact absurd hok (by simp)
  | ok t2 =>
    simp only at hok
    obtain rfl : t2 = t := Except.ok.inj hok
    rfl

/-- C4: `rollout` and `heuristic_rollout` return a value in `[0, 1]` — in fact
in `{0, 1/2, 1}` — the self-side ('x') win score; on a terminal state they
return the terminal score `1`/`0.5`/`0` for an x-win/draw/other without
simulating, and on a non-terminal state they return the score of a completed
playout ending in a terminal state. -/
theorem claim4_rollout_range (choose : Nat → Nat) (s : TicTacToe_state)
    (h : WellFormed s) :
    (s.rollout choose ∈ ({0, 1/2, 1} : Set ℚ) ∧
      s.heuristic_rollout choose ∈ ({0, 1/2, 1} : Set ℚ)) ∧
    (0 ≤ s.rollout choose ∧ s.rollout choose ≤ 1 ∧
      0 ≤ s.heuristic_rollout choose ∧ s.heuristic_rollout choose ≤ 1) ∧
    (s.is_terminal = true →
      s.rollout choose = scoreOf s.winner ∧
      s.heuristic_rollout choose = scoreOf s.winner) ∧
    (s.is_terminal = false →
      (∃ t, t.is_terminal = true ∧ WellFormed t ∧
        s.rollout choose = scoreOf t.winner) ∧
      (∃ t, t.is_terminal = true ∧ WellFormed t ∧
        s.heuristic_rollout choose = scoreOf t.winner)) := by
  have hmem : ∀ w : Char, scoreOf w ∈ ({0, 1/2, 1} : Set ℚ) := by
    intro w
    rcases scoreOf_cases w with hw | hw | hw <;> simp [hw]
  have hbnd : ∀ w : Char, 0 ≤ scoreOf w ∧ scoreOf w ≤ 1 := by
    intro w
    rcases scoreOf_cases w with hw | hw | hw <;> rw [hw] <;> norm_num
  by_cases hterm : s.is_terminal = true
  · have h1 := rollout_terminal choose s hterm
    have h2 := heuristic_rollout_terminal choose s hterm
    rw [h1, h2]
    exact ⟨⟨hmem _, hmem _⟩, ⟨(hbnd _).1, (hbnd _).2, (hbnd _).1, (hbnd _).2⟩,
      fun _ => ⟨rfl, rfl⟩, fun hf => absurd hterm (by simp [hf])⟩
  · have hterm' : s.is_terminal = false := Bool.not_eq_true _ |>.mp hterm
    obtain ⟨t1, ht1, hwf1, he1⟩ := rollout_nonterminal choose s h hterm'
    obtain ⟨t2, ht2, hwf2, he2⟩ := heuristic_rollout_nonterminal choose s h hterm'
    rw [he1, he2]
    refine ⟨⟨hmem _, hmem _⟩, ⟨(hbnd _).1, (hbnd _).2, (hbnd _).1, (hbnd _).2⟩,
      fun hf => absurd hf hterm, fun _ => ⟨⟨t1, ht1, hwf1, rfl⟩, ⟨t2, ht2, hwf2, rfl⟩⟩⟩

/-- Witness for C4 on the freshly constructed empty-board state. -/
theorem claim4_witness :
    ((emptyState.rollout (fun _ => 0) ∈ ({0, 1/2, 1} : Set ℚ) ∧
      emptyState.heuristic_rollout (fun _ => 0) ∈ ({0, 1/2, 1} : Set ℚ)) ∧
    (0 ≤ emptyState.rollout (fun _ => 0) ∧ emptyState.rollout (fun _ => 0) ≤ 1 ∧
      0 ≤ emptyState.heuristic_rollout (fun _ => 0) ∧
      emptyState.heuristic_rollout (fun _ => 0) ≤ 1) ∧
    (emptyState.is_terminal = true →
      emptyState.rollout (fun _ => 0) = scoreOf emptyState.winner ∧
      emptyState.heuristic_rollout (fun _ => 0) = scoreOf emptyState.winner) ∧
    (emptyState.is_terminal = false →
      (∃ t, t.is_terminal = true ∧ WellFormed t ∧
        emptyState.rollout (fun _ => 0) = scoreOf t.winner) ∧
      (∃ t, t.is_terminal = true ∧ WellFormed t ∧
        emptyState.heuristic_rollout (fun _ => 0) = scoreOf t.winner))) :=
  claim4_rollout_range (fun _ => 0) emptyState (by decide)

lemma find?_key_filter (l : List (Nat × TicTacToe_state)) (a b : Nat)
    (h : a ≠ b) :
    ((l.filter fun p => !(p.1 == b)).find? fun p => p.1 == a)
      = l.find? fun p => p.1 == a := by
  induction l with
  | nil => rfl
  | cons p t ih =>
    by_cases h1 : p.1 = b
    · have hfb : (!(p.1 == b)) = false := by simp [h1]
      have hpa : (p.1 == a) = false := by
        rw [h1]
        exact beq_eq_false_iff_ne.mpr (Ne.symm h)
      rw [List.filter_cons, hfb]
      simp only [Bool.false_eq_true, if_false]
      rw [ih, List.find?_cons_of_neg _ (by simp [hpa])]
    · have hfb : (!(p.1 == b)) = true := by simp [h1]
      rw [List.filter_cons, hfb]
      simp only [if_true]
      by_cases h2 : p.1 = a
      · rw [List.find?_cons_of_pos _ (by simp [h2]),
          List.find?_cons_of_pos _ (by simp [h2])]
      · rw [List.find?_cons_of_neg _ (by simp [h2]),
          List.find?_cons_of_neg _ (by simp [h2]), ih]

lemma find?_key_map_update (l : List (Nat × TicTacToe_state)) (a b : Nat)
    (s : TicTacToe_state) (h : a ≠ b) :
    ((l.map fun p => if p.1 = b then (b, s) else p).find? fun p => p.1 == a)
      = l.find? fun p => p.1 == a := by
  induction l with
  | nil => rfl
  | cons p t ih =>
    rw [List.map_cons]
    by_cases h1 : p.1 = b
    · have hpa : (p.1 == a) = false := by
        rw [h1]
        exact beq_eq_false_iff_ne.mpr (Ne.symm h)
      rw [if_pos h1, List.find?_cons_of_neg _ (by simp [Ne.symm h]),
        List.find?_cons_of_neg _ (by simp [hpa]), ih]
    · rw [if_neg h1]
      by_cases h2 : p.1 = a
      · rw [List.find?_cons_of_pos _ (by simp [h2]),
          List.find?_cons_of_pos _ (by simp [h2])]
      · rw [List.find?_cons_of_neg _ (by simp [h2]),
          List.find?_cons_of_neg _ (by simp [h2]), ih]

lemma readMem_free_ne (m : Mem) (a b : Nat) (h : a ≠ b) :
    readMem (free m b) a = readMem m a := by
  unfold readMem free
  exact congrArg (Option.map _) (find?_key_filter m.heap a b h)

lemma readMem_write_ne (m : Mem) (a b : Nat) (s : TicTacToe_state)
    (h : a ≠ b) : readMem (writeMem m b s) a = readMem m a := by
  unfold readMem writeMem
  exact congrArg (Option.map _) (find?_key_map_update m.heap a b s h)

lemma readMem_alloc_lt (m : Mem) (s : TicTacToe_state) (a : Nat)
    (h : a < m.next) : readMem (alloc m s).2 a = readMem m a := by
  unfold readMem alloc
  rw [List.find?_cons_of_neg _ (by simp; omega)]

/-- Frame property of the random playout loop: every address below the
allocation watermark other than the current address (which is protected only on
the first iteration) is untouched — in particular the original receiver at its
address survives with its value intact, because only freshly allocated
successors are ever freed. -/
lemma rolloutSim_frame (choose : Nat → Nat) :
    ∀ (n : Nat) (avail : List Nat) (k : Nat) (cur : TicTacToe_state)
      (curAddr : Nat) (first : Bool) (m : Mem), avail.length ≤ n →
      m.next ≤ (rolloutSim choose k cur curAddr first avail m).2.next ∧
      ∀ a2, a2 < m.next → (first = true ∨ a2 ≠ curAddr) →
        readMem (rolloutSim choose k cur curAddr first avail m).2 a2
          = readMem m a2 := by
  intro n
  induction n with
  | zero =>
    intro avail k cur curAddr first m hle
    cases avail with
    | nil =>
      simp only [rolloutSim]
      exact ⟨le_rfl, fun a2 _ _ => trivial⟩
    | cons a rest => simp at hle
  | succ n ih =>
    intro avail k cur curAddr first m hle
    cases avail with
    | nil =>
      simp only [rolloutSim]
      exact ⟨le_rfl, fun a2 _ _ => trivial⟩
    | cons a rest =>
      simp only [rolloutSim]
      generalize hq : choose k % (a :: rest).length = q
      generalize hposgd : (a :: rest).getD q 0 = pos
      have hq9 : q < (a :: rest).length := by
        rw [← hq]
        exact Nat.mod_lt _ (by simp)
      cases hns : cur.next_state ⟨pos / 3, pos % 3, cur.turn⟩ with
      | none =>
        simp only [hns]
        exact ⟨le_rfl, fun a2 _ _ => trivial⟩
      | some nxt =>
        simp only [hns]
        have haN : (alloc m nxt).1 = m.next := rfl
        set m2 := if first = true then (alloc m nxt).2
          else free (alloc m nxt).2 curAddr with hm2
        have hm2next : m2.next = m.next + 1 := by
          cases first <;> simp [hm2, free, alloc]
        have hm2read : ∀ a2, a2 < m.next → (first = true ∨ a2 ≠ curAddr) →
            readMem m2 a2 = readMem m a2 := by
          intro a2 ha2 hca
          cases first with
          | true =>
            simp only [hm2, if_true]
            exact readMem_alloc_lt m nxt a2 ha2
          | false =>
            have hne : a2 ≠ curAddr := by
              rcases hca with hca | hca
              · exact absurd hca (by simp)
              · exact hca
            simp only [hm2, Bool.false_eq_true, if_false]
            rw [readMem_free_ne _ _ _ hne]
            exact readMem_alloc_lt m nxt a2 ha2
        by_cases hterm : nxt.is_terminal = true
        · rw [if_pos hterm]
          refine ⟨?_, fun a2 ha2 hca => ?_⟩
          · show m.next ≤ (free m2 (alloc m nxt).1).next
            have : (free m2 (alloc m nxt).1).next = m2.next := rfl
            omega
          · show readMem (free m2 (alloc m nxt).1) a2 = readMem m a2
            rw [readMem_free_ne _ _ _ (by rw [haN]; omega)]
            exact hm2read a2 ha2 hca
        · rw [if_neg hterm]
          have hlen2 : ((a :: rest).eraseIdx q).length ≤ n := by
            rw [List.length_eraseIdx]
            simp only [hq9, if_true]
            simp only [List.length_cons] at hle ⊢
            omega
          obtain ⟨ihnext, ihread⟩ :=
            ih ((a :: rest).eraseIdx q) (k + 1) nxt (alloc m nxt).1 false m2 hlen2
          refine ⟨by omega, fun a2 ha2 hca => ?_⟩
          rw [ihread a2 (by omega) (Or.inr (by rw [haN]; omega))]
          exact hm2read a2 ha2 hca

/-- Frame property of the heuristic playout loop, identical in structure to
`rolloutSim_frame`. -/
lemma heurSim_frame (choose : Nat → Nat) :
    ∀ (n : Nat) (avail : List Nat) (k : Nat) (cur : TicTacToe_state)
      (curAddr : Nat) (first : Bool) (m : Mem), avail.length ≤ n →
      m.next ≤ (heurSim choose k cur curAddr first avail m).2.next ∧
      ∀ a2, a2 < m.next → (first = true ∨ a2 ≠ curAddr) →
        readMem (heurSim choose k cur curAddr first avail m).2 a2
          = readMem m a2 := by
  intro n
  induction n with
  | zero =>
    intro avail k cur curAddr first m hle
    cases avail with
    | nil =>
      simp only [heurSim]
      exact ⟨le_rfl, fun a2 _ _ => trivial⟩
    | cons a rest => simp at hle
  | succ n ih =>
    intro avail k cur curAddr first m hle
    cases avail with
    | nil =>
      simp only [heurSim]
      exact ⟨le_rfl, fun a2 _ _ => trivial⟩
    | cons a rest =>
      simp only [heurSim]
      generalize hbest : find_best_heuristic_move choose k cur (a :: rest) = best
      by_cases hbm : best ∈ a :: rest
      · rw [dif_pos hbm]
        cases hns : cur.next_state ⟨best / 3, best % 3, cur.turn⟩ with
        | none =>
          simp only [hns]
          exact ⟨le_rfl, fun a2 _ _ => trivial⟩
        | some nxt =>
          simp only [hns]
          have haN : (alloc m nxt).1 = m.next := rfl
          set m2 := if first = true then (alloc m nxt).2
            else free (alloc m nxt).2 curAddr with hm2
          have hm2next : m2.next = m.next + 1 := by
            cases first <;> simp [hm2, free, alloc]
          have hm2read : ∀ a2, a2 < m.next → (first = true ∨ a2 ≠ curAddr) →
              readMem m2 a2 = readMem m a2 := by
            intro a2 ha2 hca
            cases first with
            | true =>
              simp only [hm2, if_true]
              exact readMem_alloc_lt m nxt a2 ha2
            | false =>
              have hne : a2 ≠ curAddr := by
                rcases hca with hca | hca
                · exact absurd hca (by simp)
                · exact hca
              simp only [hm2, Bool.false_eq_true, if_false]
              rw [readMem_free_ne _ _ _ hne]
              exact readMem_alloc_lt m nxt a2 ha2
          by_cases hterm : nxt.is_terminal = true
          · rw [if_pos hterm]
            refine ⟨?_, fun a2 ha2 hca => ?_⟩
            · show m.next ≤ (free m2 (alloc m nxt).1).next
              have : (free m2 (alloc m nxt).1).next = m2.next := rfl
              omega
            · show readMem (free m2 (alloc m nxt).1) a2 = readMem m a2
              rw [readMem_free_ne _ _ _ (by rw [haN]; omega)]
              exact hm2read a2 ha2 hca
          · rw [if_neg hterm]
            have hlen2 : ((a :: rest).erase best).length ≤ n := by
              have h1 := List.length_erase_of_mem hbm
              simp only [List.length_cons] at hle h1 ⊢
              omega
            obtain ⟨ihnext, ihread⟩ :=
              ih ((a :: rest).erase best) (k + 1) nxt (alloc m nxt).1 false m2 hlen2
            refine ⟨by omega, fun a2 ha2 hca => ?_⟩
            rw [ihread a2 (by omega) (Or.inr (by rw [haN]; omega))]
            exact hm2read a2 ha2 hca
      · rw [dif_neg hbm]
        exact ⟨le_rfl, fun a2 _ _ => rfl⟩

lemma rolloutFull_mem_eq (choose : Nat → Nat) (s : TicTacToe_state) :
    (s.rolloutFull choose).2 = if s.is_terminal = true then initMem s
      else (rolloutSim choose 0 s 0 true (availableOf s.board) (initMem s)).2 := by
  unfold TicTacToe_state.rolloutFull
  by_cases ht : s.is_terminal = true
  · rw [if_pos ht, if_pos ht]
  · rw [if_neg ht, if_neg ht]
    rcases rolloutSim choose 0 s 0 true (availableOf s.board) (initMem s)
      with ⟨res, mm⟩
    cases res <;> rfl

lemma heuristic_rolloutFull_mem_eq (choose : Nat → Nat) (s : TicTacToe_state) :
    (s.heuristic_rolloutFull choose).2 = if s.is_terminal = true then initMem s
      else (heurSim choose 0 s 0 true (availableOf s.board) (initMem s)).2 := by
  unfold TicTacToe_state.heuristic_rolloutFull
  by_cases ht : s.is_terminal = true
  · rw [if_pos ht, if_pos ht]
  · rw [if_neg ht, if_neg ht]
    rcases heurSim choose 0 s 0 true (availableOf s.board) (initMem s)
      with ⟨res, mm⟩
    cases res <;> rfl

lemma readMem_initMem (s : TicTacToe_state) : readMem (initMem s) 0 = some s := by
  simp [readMem, initMem]

/-- C9: the receiver object survives `rollout` and `heuristic_rollout` with its
board, turn and winner fields intact (the playouts advance over newly allocated
successors and delete only those, never the original, despite the const-cast of
the receiver), and `next_state` works on a freshly allocated copy, leaving
every pre-existing heap address — in particular the receiver's — unchanged.
`actions_to_try` only reads the board (it allocates a fresh queue), modelled by
the pure function `TicTacToe_state.actions_to_try`. -/
theorem claim9_frame (choose : Nat → Nat) (s : TicTacToe_state) (m : Mem)
    (addr : Nat) (mv : TicTacToe_move) (a : Nat) (ha : a < m.next) :
    readMem (s.rolloutFull choose).2 0 = some s ∧
    readMem (s.heuristic_rolloutFull choose).2 0 = some s ∧
    readMem (next_state_onHeap m addr mv).2 a = readMem m a := by
  refine ⟨?_, ?_, ?_⟩
  · rw [rolloutFull_mem_eq]
    by_cases ht : s.is_terminal = true
    · rw [if_pos ht, readMem_initMem]
    · rw [if_neg ht]
      have hfr := (rolloutSim_frame choose (availableOf s.board).length
        (availableOf s.board) 0 s 0 true (initMem s) le_rfl).2 0
        (by simp [initMem]) (Or.inl rfl)
      rw [hfr, readMem_initMem]
  · rw [heuristic_rolloutFull_mem_eq]
    by_cases ht : s.is_terminal = true
    · rw [if_pos ht, readMem_initMem]
    · rw [if_neg ht]
      have hfr := (heurSim_frame choose (availableOf s.board).length
        (availableOf s.board) 0 s 0 true (initMem s) le_rfl).2 0
        (by simp [initMem]) (Or.inl rfl)
      rw [hfr, readMem_initMem]
  · unfold next_state_onHeap
    cases hrd : readMem m addr with
    | none => simp only [hrd]
    | some st =>
      simp only [hrd]
      by_cases hb : (boardGet st.board (3 * mv.x + mv.y) == ' ') = true
      · rw [if_pos hb]
        show readMem (writeMem (alloc m st).2 (alloc m st).1 _) a = readMem m a
        rw [readMem_write_ne _ _ _ _ (by show a ≠ (alloc m st).1; simp [alloc]; omega)]
        exact readMem_alloc_lt m st a ha
      · rw [if_neg hb]
        exact readMem_alloc_lt m st a ha

/-- Witness for C9 on the empty-board state and a small concrete heap. -/
theorem claim9_witness :
    readMem (emptyState.rolloutFull (fun _ => 0)).2 0 = some emptyState ∧
    readMem (emptyState.heuristic_rolloutFull (fun _ => 0)).2 0 = some emptyState ∧
    readMem (next_state_onHeap ⟨[(5, emptyState)], 6⟩ 5 ⟨0, 0, 'x'⟩).2 5
      = readMem ⟨[(5, emptyState)], 6⟩ 5 :=
  claim9_frame (fun _ => 0) emptyState ⟨[(5, emptyState)], 6⟩ 5 ⟨0, 0, 'x'⟩ 5
    (by decide)

lemma firstZeroIdx_some (children : List SpecChild) :
    ∀ i, firstZeroIdx children = some i →
      i < children.length ∧ (children.getD i ⟨1, 0⟩).visits = 0 ∧
      ∀ j < i, (children.getD j ⟨1, 0⟩).visits ≠ 0 := by
  induction children with
  | nil => intro i h; simp [firstZeroIdx] at h
  | cons ch rest ih =>
    intro i h
    by_cases hz : ch.visits = 0
    · simp only [firstZeroIdx, hz, if_pos, Option.some.injEq] at h
      subst h
      exact ⟨by simp, by simpa using hz, fun j hj => absurd hj (by omega)⟩
    · simp only [firstZeroIdx, hz, if_false, Option.map_eq_some'] at h
      obtain ⟨i', hi', rfl⟩ := h
      obtain ⟨hlt, hzero, hfirst⟩ := ih i' hi'
      refine ⟨by simp; omega, by simpa using hzero, ?_⟩
      intro j hj
      cases j with
      | zero => simpa using hz
      | succ j' =>
        have := hfirst j' (by omega)
        simpa using this

lemma firstZeroIdx_none (children : List SpecChild)
    (h : firstZeroIdx children = none) : ∀ ch ∈ children, ch.visits ≠ 0 := by
  induction children with
  | nil => simp
  | cons ch rest ih =>
    intro c hc
    by_cases hz : ch.visits = 0
    · simp [firstZeroIdx, hz] at h
    · rcases List.mem_cons.mp hc with rfl | hc2
      · exact hz
      · refine ih ?_ c hc2
        simpa [firstZeroIdx, hz, Option.map_eq_none'] using h

open Classical in
lemma bestIdxOf_spec (f : Nat → ℝ) :
    ∀ n, (0 < n → bestIdxOf f n < n) ∧
      (∀ j < n, f j ≤ f (bestIdxOf f n)) ∧
      (∀ j < bestIdxOf f n, f j < f (bestIdxOf f n)) := by
  intro n
  induction n with
  | zero =>
    have h0 : bestIdxOf f 0 = 0 := rfl
    exact ⟨fun h => absurd h (by omega), fun j hj => absurd hj (by omega),
      fun j hj => absurd hj (by rw [h0]; omega)⟩
  | succ n ih =>
    have hstep : bestIdxOf f (n + 1)
        = if f (bestIdxOf f n) < f n then n else bestIdxOf f n := by
      unfold bestIdxOf
      rw [List.range_succ, List.foldl_append, List.foldl_cons, List.foldl_nil]
    obtain ⟨ih1, ih2, ih3⟩ := ih
    by_cases hcmp : f (bestIdxOf f n) < f n
    · rw [hstep, if_pos hcmp]
      refine ⟨fun _ => by omega, fun j hj => ?_, fun j hj => ?_⟩
      · rcases Nat.lt_succ_iff_lt_or_eq.mp hj with hj' | rfl
        · exact le_trans (ih2 j hj') (le_of_lt hcmp)
        · exact le_rfl
      · exact lt_of_le_of_lt (ih2 j hj) hcmp
    · rw [hstep, if_neg hcmp]
      have hfn : f n ≤ f (bestIdxOf f n) := not_lt.mp hcmp
      refine ⟨fun _ => ?_, fun j hj => ?_, ih3⟩
      · cases Nat.eq_zero_or_pos n with
        | inl h0 =>
          subst h0
          have hb : bestIdxOf f 0 = 0 := rfl
          omega
        | inr hpos =>
          have := ih1 hpos
          omega
      · rcases Nat.lt_succ_iff_lt_or_eq.mp hj with hj' | rfl
        · exact ih2 j hj'
        · exact hfn

/-- C5 (modelled from the spec, the implementation file being outside src/):
`select_best_child` on a node with at least one child returns a child with zero
visits — the first such child — before any positive-visits sibling; with all
children visited it returns the UCT maximiser, and in both regimes ties are
broken by lowest index in the children list. -/
theorem claim5_select_best_child (c : ℝ) (selfVisits : Nat) (selfTurn : Bool)
    (children : List SpecChild) (hne : children ≠ []) :
    ∃ i, select_best_child c selfVisits selfTurn children = some i ∧
      i < children.length ∧
      ((∃ ch ∈ children, ch.visits = 0) →
        (children.getD i ⟨1, 0⟩).visits = 0 ∧
        ∀ j < i, (children.getD j ⟨1, 0⟩).visits ≠ 0) ∧
      ((∀ ch ∈ children, ch.visits ≠ 0) →
        (∀ j < children.length,
          specUCT c selfVisits selfTurn (children.getD j ⟨1, 0⟩) ≤
            specUCT c selfVisits selfTurn (children.getD i ⟨1, 0⟩)) ∧
        ∀ j < i,
          specUCT c selfVisits selfTurn (children.getD j ⟨1, 0⟩) <
            specUCT c selfVisits selfTurn (children.getD i ⟨1, 0⟩)) := by
  unfold select_best_child
  rw [if_neg (by simpa [List.isEmpty_iff] using hne)]
  cases hz : firstZeroIdx children with
  | some i =>
    simp only [hz]
    obtain ⟨hlt, hzero, hfirst⟩ := firstZeroIdx_some children i hz
    refine ⟨i, rfl, hlt, fun _ => ⟨hzero, hfirst⟩, fun hall => ?_⟩
    have hmem : children.getD i ⟨1, 0⟩ ∈ children := by
      rw [List.getD_eq_getElem _ _ hlt]
      exact List.getElem_mem hlt
    exact absurd hzero (hall _ hmem)
  | none =>
    simp only [hz]
    have hall0 := firstZeroIdx_none children hz
    have hlen : 0 < children.length := List.length_pos.mpr hne
    obtain ⟨h1, h2, h3⟩ := bestIdxOf_spec
      (fun j => specUCT c selfVisits selfTurn (children.getD j ⟨1, 0⟩))
      children.length
    refine ⟨_, rfl, h1 hlen, fun hex => ?_, fun _ => ⟨h2, h3⟩⟩
    obtain ⟨ch, hch, hchz⟩ := hex
    exact absurd hchz (hall0 ch hch)

/-- Witness for C5 on two concrete children, the second unvisited. -/
theorem claim5_witness :
    ∃ i, select_best_child 1 2 true [⟨1, 1⟩, ⟨0, 0⟩] = some i ∧
      i < ([⟨1, 1⟩, ⟨0, 0⟩] : List SpecChild).length ∧
      ((∃ ch ∈ ([⟨1, 1⟩, ⟨0, 0⟩] : List SpecChild), ch.visits = 0) →
        (([⟨1, 1⟩, ⟨0, 0⟩] : List SpecChild).getD i ⟨1, 0⟩).visits = 0 ∧
        ∀ j < i,
          (([⟨1, 1⟩, ⟨0, 0⟩] : List SpecChild).getD j ⟨1, 0⟩).visits ≠ 0) ∧
      ((∀ ch ∈ ([⟨1, 1⟩, ⟨0, 0⟩] : List SpecChild), ch.visits ≠ 0) →
        (∀ j < ([⟨1, 1⟩, ⟨0, 0⟩] : List SpecChild).length,
          specUCT 1 2 true (([⟨1, 1⟩, ⟨0, 0⟩] : List SpecChild).getD j ⟨1, 0⟩) ≤
            specUCT 1 2 true
              (([⟨1, 1⟩, ⟨0, 0⟩] : List SpecChild).getD i ⟨1, 0⟩)) ∧
        ∀ j < i,
          specUCT 1 2 true (([⟨1, 1⟩, ⟨0, 0⟩] : List SpecChild).getD j ⟨1, 0⟩) <
            specUCT 1 2 true
              (([⟨1, 1⟩, ⟨0, 0⟩] : List SpecChild).getD i ⟨1, 0⟩)) :=
  claim5_select_best_child 1 2 true [⟨1, 1⟩, ⟨0, 0⟩] (by simp)

end MCTSVerify
